import Mathlib

/-!
# PROOF master-side coordinator (`proof/inc/TProof.h`)

A shallow embedding of the declarations of `TProof.h`: the worker record
`TSlaveInfo`, the magic constants, the coordinator class `TProof` with its
inline members, and the worker-list operations that the header only declares.

Conventions.
* `Int_t` is `Int`; no arithmetic is performed on these values, so no
  wrap-around is involved.
* `TString` and `const char *` text are `String`; a `const char *` argument
  that may be the null pointer is `Option String`.
* A `TList *` is `Option (List TSlave)`: `none` is the null pointer, `some l`
  a list whose iteration order is the order of `l`.
* A C++ constructor is a function of the storage it runs in: a member of
  pointer or scalar type that the constructor does not assign keeps whatever
  that storage held.
-/

set_option autoImplicit false

namespace PROOF

/-! ## Magic constants (`TProof.h`, lines 70-79) -/

/-- Protocol version number, `const Int_t kPROOF_Protocol = 3`. -/
def kPROOF_Protocol : Int := 3

/-- IANA registered PROOF port, `const Int_t kPROOF_Port = 1093`. -/
def kPROOF_Port : Int := 1093

/-! ## `class TSlaveInfo` (lines 82-102) -/

/-- The enumeration `TSlaveInfo::ESlaveStatus`, in declaration order. -/
inductive ESlaveStatus where
  | kActive
  | kNotActive
  | kBad
  deriving DecidableEq, Repr

/-- The data members of `TSlaveInfo`. -/
structure TSlaveInfo where
  fOrdinal : Int
  fHostName : String
  fPerfIndex : Int
  fStatus : ESlaveStatus
  deriving DecidableEq, Repr

namespace TSlaveInfo

/-- The constructor `TSlaveInfo(Int_t ordinal, const char *host, Int_t perfidx)`:
the member initialiser list stores the three arguments and sets `fStatus` to
`kNotActive`. -/
def new (ordinal : Int) (host : String) (perfidx : Int) : TSlaveInfo :=
  { fOrdinal := ordinal, fHostName := host, fPerfIndex := perfidx,
    fStatus := ESlaveStatus.kNotActive }

/-- The constructor called with no arguments: the defaults are
`ordinal = 0`, `host = ""`, `perfidx = 0`. -/
def newDefault : TSlaveInfo := new 0 "" 0

/-- The accessor `GetName() const { return fHostName; }`. -/
def GetName (i : TSlaveInfo) : String := i.fHostName

/-- The accessor `GetOrdinal() const { return fOrdinal; }`. -/
def GetOrdinal (i : TSlaveInfo) : Int := i.fOrdinal

/-- The mutator `SetStatus(ESlaveStatus stat) { fStatus = stat; }`. -/
def SetStatus (i : TSlaveInfo) (stat : ESlaveStatus) : TSlaveInfo :=
  { i with fStatus := stat }

end TSlaveInfo

/-! ## `class TProof` (lines 105-283) -/

/-- Modelled from the spec: the class `TSlave` is only forward-declared in the
header. A worker is identified by its ordinal and carries the host it runs on
and its performance index. Two records are the same worker exactly when they
are equal. -/
structure TSlave where
  fOrdinal : Int
  fName : String
  fPerfIdx : Int
  deriving DecidableEq, Repr

/-- The worker `w` with its performance index replaced by `perf w`. -/
def TSlave.withPerfIdx (perf : TSlave → Int) (w : TSlave) : TSlave :=
  { w with fPerfIdx := perf w }

/-- The enumeration `TProof::ESlaves`, in declaration order. -/
inductive ESlaves where
  | kAll
  | kActive
  | kUnique
  deriving DecidableEq, Repr

/-- The enumeration `TProof::EUrgent`. -/
inductive EUrgent where
  | kHardInterrupt
  | kSoftInterrupt
  | kShutdownInterrupt
  deriving DecidableEq, Repr

/-- The integer value of an `EUrgent` enumerator,
`enum EUrgent { kHardInterrupt = 1, kSoftInterrupt, kShutdownInterrupt }`:
the first is given as `1`, each following one is its predecessor plus one. -/
def EUrgent.toInt : EUrgent → Int
  | EUrgent.kHardInterrupt => 1
  | EUrgent.kSoftInterrupt => 1 + 1
  | EUrgent.kShutdownInterrupt => 1 + 1 + 1

/-- The data members of `TProof` that hold the session and the worker lists,
in declaration order. `fCondor` is a pointer of which only nullness is
recorded (`none` is null). The members left out (security context, slave-info
list, monitors, counters, handlers, player, file map) are not read or written
by any function embedded here. -/
structure TProof where
  fValid : Bool
  fMaster : String
  fConfDir : String
  fConfFile : String
  fWorkDir : String
  fUser : String
  fImage : String
  fUrlProtocol : String
  fPort : Int
  fProtocol : Int
  fLogLevel : Int
  fStatus : Int
  fParallel : Int
  fMasterServ : Bool
  fSendGroupView : Bool
  fSlaves : Option (List TSlave)
  fActiveSlaves : Option (List TSlave)
  fUniqueSlaves : Option (List TSlave)
  fBadSlaves : Option (List TSlave)
  fCondor : Option Nat
  deriving DecidableEq, Repr

/-- The workers a `TList *` gives access to: those of the list it points to,
none for the null pointer. -/
def slavesOf (l : Option (List TSlave)) : List TSlave := l.getD []

/-- Modelled from the spec: the class `TMessage` is only forward-declared.
A structured message "carries a message kind tag plus optional object"; the
object is given by its serialised form. -/
structure TMessage where
  fWhat : Int
  fObject : Option String
  deriving DecidableEq, Repr

/-- Modelled from the spec: the three payload shapes of a broadcast,
a structured message, a short textual command with its kind tag (the text may
be the null pointer), and a raw byte buffer with its length. -/
inductive Payload where
  | message (mess : TMessage)
  | text (mess : Option String) (kind : Int)
  | raw (buffer : List Nat) (length : Int)
  deriving DecidableEq, Repr

/-- What a broadcast leaves behind: the coordinator state, the returned count
of successful sends, and the workers a send was attempted to, in order. -/
structure Sent where
  state : TProof
  nsent : Int
  attempted : List TSlave
  deriving DecidableEq, Repr

namespace TProof

/-- The private default constructor
`TProof() { fSlaves = fActiveSlaves = fBadSlaves = 0; fCondor = 0; }`
run in storage holding `mem`. The `TString` members are default-constructed
to the empty string; the body assigns null to `fSlaves`, `fActiveSlaves`,
`fBadSlaves` and `fCondor`; every other member is left as the storage had it. -/
def ctor (mem : TProof) : TProof :=
  { mem with
    fMaster := "", fConfDir := "", fConfFile := "", fWorkDir := "",
    fUser := "", fImage := "", fUrlProtocol := "",
    fSlaves := none, fActiveSlaves := none, fBadSlaves := none,
    fCondor := none }

/-- The accessor `GetListOfSlaves() const { return fSlaves; }`. -/
def GetListOfSlaves (p : TProof) : Option (List TSlave) := p.fSlaves

/-- The accessor `GetListOfActiveSlaves() const { return fActiveSlaves; }`. -/
def GetListOfActiveSlaves (p : TProof) : Option (List TSlave) := p.fActiveSlaves

/-- The accessor `GetListOfUniqueSlaves() const { return fUniqueSlaves; }`. -/
def GetListOfUniqueSlaves (p : TProof) : Option (List TSlave) := p.fUniqueSlaves

/-- The accessor `GetListOfBadSlaves() const { return fBadSlaves; }`. -/
def GetListOfBadSlaves (p : TProof) : Option (List TSlave) := p.fBadSlaves

/-- The accessor `GetRemoteProtocol() const { return fProtocol; }`. -/
def GetRemoteProtocol (p : TProof) : Int := p.fProtocol

/-- The accessor `GetClientProtocol() const { return kPROOF_Protocol; }`. -/
def GetClientProtocol (_p : TProof) : Int := kPROOF_Protocol

/-- The inline member
`IsParallel() const { return GetParallel() > 0 ? kTRUE : kFALSE; }`.
`GetParallel` is declared in the header and defined elsewhere, so it is a
parameter here. -/
def IsParallel (GetParallel : TProof → Int) (p : TProof) : Bool :=
  if GetParallel p > 0 then true else false

/-- Modelled from the spec: the list a selector of type `ESlaves` stands for
(`selectSet`); the selecting code is in the member functions the header only
declares. -/
def listOf (p : TProof) : ESlaves → Option (List TSlave)
  | ESlaves.kAll => p.fSlaves
  | ESlaves.kActive => p.fActiveSlaves
  | ESlaves.kUnique => p.fUniqueSlaves

/-- The invariant of the four worker lists: Active is a subset of All, Unique
a subset of Active, Bad a subset of All, and Active and Bad are disjoint. A
null list is read as having no workers. -/
def ListsInvariant (p : TProof) : Prop :=
  slavesOf p.fActiveSlaves ⊆ slavesOf p.fSlaves ∧
  slavesOf p.fUniqueSlaves ⊆ slavesOf p.fActiveSlaves ∧
  slavesOf p.fBadSlaves ⊆ slavesOf p.fSlaves ∧
  List.Disjoint (slavesOf p.fActiveSlaves) (slavesOf p.fBadSlaves)

instance (p : TProof) : Decidable (ListsInvariant p) := by
  unfold ListsInvariant
  unfold List.Disjoint
  infer_instance

/-! ### Worker-list operations declared in the header -/

/-- Modelled from the spec: `MarkBad(TSlave *sl)` is declared in the header
and defined elsewhere. The spec: "moves node to Bad, removes from Active and
Unique, idempotent". The worker is taken out of the Active and Unique lists
and is entered in the Bad list unless it is there already. -/
def MarkBad (p : TProof) (sl : TSlave) : TProof :=
  { p with
    fActiveSlaves := some ((slavesOf p.fActiveSlaves).filter (fun w => decide (w ≠ sl))),
    fUniqueSlaves := some ((slavesOf p.fUniqueSlaves).filter (fun w => decide (w ≠ sl))),
    fBadSlaves := some (if sl ∈ slavesOf p.fBadSlaves then slavesOf p.fBadSlaves
                        else slavesOf p.fBadSlaves ++ [sl]) }

/-- Modelled from the spec: the pass of `FindUniqueSlaves` over the Active
list. The spec: "pass over Active grouping by host identity; first worker per
distinct host enters Unique". `hosts` are the hosts met so far. -/
def uniqueFrom (hosts : List String) : List TSlave → List TSlave
  | [] => []
  | sl :: rest =>
    if sl.fName ∈ hosts then uniqueFrom hosts rest
    else sl :: uniqueFrom (sl.fName :: hosts) rest

/-- Modelled from the spec: `FindUniqueSlaves()` is declared in the header
and defined elsewhere. It replaces the Unique list by the result of the pass
over the Active list. -/
def FindUniqueSlaves (p : TProof) : TProof :=
  { p with fUniqueSlaves := some (uniqueFrom [] (slavesOf p.fActiveSlaves)) }

/-- Modelled from the spec: the loop shared by the `Broadcast` family, which
the header only declares. The spec: "Sends sequentially to each target; a send
failure marks that worker Bad but does not abort the remaining sends", and the
result is the "count of workers successfully sent to". `send sl pl` tells
whether the connection of `sl` accepts `pl`. -/
def broadcastLoop (send : TSlave → Payload → Bool) (pl : Payload) :
    List TSlave → Sent → Sent
  | [], r => r
  | sl :: rest, r =>
    if send sl pl then
      broadcastLoop send pl rest
        { state := r.state, nsent := r.nsent + 1, attempted := r.attempted ++ [sl] }
    else
      broadcastLoop send pl rest
        { state := r.state.MarkBad sl, nsent := r.nsent, attempted := r.attempted ++ [sl] }

/-- Modelled from the spec: a broadcast of payload `pl` to the workers of the
list `slaves`, starting with a count of zero. -/
def broadcastPayload (send : TSlave → Payload → Bool) (pl : Payload)
    (slaves : Option (List TSlave)) (p : TProof) : Sent :=
  broadcastLoop send pl (slavesOf slaves) { state := p, nsent := 0, attempted := [] }

/-- Modelled from the spec: `Broadcast(const TMessage &mess, TList *slaves)`. -/
def BroadcastMessage (send : TSlave → Payload → Bool) (mess : TMessage)
    (slaves : Option (List TSlave)) (p : TProof) : Sent :=
  broadcastPayload send (Payload.message mess) slaves p

/-- Modelled from the spec:
`Broadcast(const char *mess, Int_t kind, TList *slaves)`. -/
def Broadcast (send : TSlave → Payload → Bool) (mess : Option String) (kind : Int)
    (slaves : Option (List TSlave)) (p : TProof) : Sent :=
  broadcastPayload send (Payload.text mess kind) slaves p

/-- Modelled from the spec:
`Broadcast(const char *mess, Int_t kind, ESlaves list)`, a broadcast to the
list the selector stands for. -/
def BroadcastSet (send : TSlave → Payload → Bool) (mess : Option String) (kind : Int)
    (list : ESlaves) (p : TProof) : Sent :=
  Broadcast send mess kind (p.listOf list) p

/-- Modelled from the spec:
`BroadcastObject(const TObject *obj, Int_t kind, TList *slaves)`, a structured
message of the given kind carrying the object. -/
def BroadcastObject (send : TSlave → Payload → Bool) (obj : Option String) (kind : Int)
    (slaves : Option (List TSlave)) (p : TProof) : Sent :=
  broadcastPayload send (Payload.message { fWhat := kind, fObject := obj }) slaves p

/-- Modelled from the spec:
`BroadcastRaw(const void *buffer, Int_t length, TList *slaves)`. -/
def BroadcastRaw (send : TSlave → Payload → Bool) (buffer : List Nat) (length : Int)
    (slaves : Option (List TSlave)) (p : TProof) : Sent :=
  broadcastPayload send (Payload.raw buffer length) slaves p

/-! ### Inline broadcast overloads (lines 187-188)

The two callees are declared in the header and defined elsewhere, so each is a
parameter; `ρ` is whatever a call returns and leaves behind. -/

/-- The inline overload
`Broadcast(Int_t kind, TList *slaves) { return Broadcast(0, kind, slaves); }`;
`BroadcastText` is the callee `Broadcast(const char *, Int_t, TList *)`. -/
def BroadcastKind {ρ : Type}
    (BroadcastText : Option String → Int → Option (List TSlave) → TProof → ρ)
    (kind : Int) (slaves : Option (List TSlave)) (p : TProof) : ρ :=
  BroadcastText none kind slaves p

/-- The inline overload
`Broadcast(Int_t kind, ESlaves list) { return Broadcast(0, kind, list); }`;
`BroadcastTextSet` is the callee `Broadcast(const char *, Int_t, ESlaves)`. -/
def BroadcastKindSet {ρ : Type}
    (BroadcastTextSet : Option String → Int → ESlaves → TProof → ρ)
    (kind : Int) (list : ESlaves) (p : TProof) : ρ :=
  BroadcastTextSet none kind list p

/-- The same overload called without a selector: the default argument is
`list = kActive`. -/
def BroadcastKindDefault {ρ : Type}
    (BroadcastTextSet : Option String → Int → ESlaves → TProof → ρ)
    (kind : Int) (p : TProof) : ρ :=
  BroadcastKindSet BroadcastTextSet kind ESlaves.kActive p

/-- The outcome of a broadcast that tolerates partial failure, for payload
`pl` sent from state `p` to `targets` with result `r`: a send was attempted to
every target, in order; the returned count is the number of targets whose send
succeeded; the Bad list has gained exactly the targets whose send failed, and
the Active list has lost exactly those. -/
def PartialFailureOutcome (send : TSlave → Payload → Bool) (pl : Payload)
    (targets : List TSlave) (p : TProof) (r : Sent) : Prop :=
  r.attempted = targets ∧
  r.nsent = ((targets.filter (fun w => send w pl)).length : Int) ∧
  (∀ w : TSlave, w ∈ slavesOf r.state.fBadSlaves ↔
    (w ∈ slavesOf p.fBadSlaves ∨ (w ∈ targets ∧ send w pl = false))) ∧
  (∀ w : TSlave, w ∈ slavesOf r.state.fActiveSlaves ↔
    (w ∈ slavesOf p.fActiveSlaves ∧ ¬ (w ∈ targets ∧ send w pl = false)))

end TProof

/-! ## Sample data -/

/-- Worker 1, on host A. -/
def w1 : TSlave := { fOrdinal := 1, fName := "A", fPerfIdx := 100 }

/-- Worker 2, on host A. -/
def w2 : TSlave := { fOrdinal := 2, fName := "A", fPerfIdx := 300 }

/-- Worker 3, on host B. -/
def w3 : TSlave := { fOrdinal := 3, fName := "B", fPerfIdx := 200 }

/-- A coordinator whose configured workers are `w1`, `w2`, `w3`, all of them
active, with empty Unique and Bad lists. -/
def threeActive : TProof :=
  { fValid := true, fMaster := "master", fConfDir := "/usr/local/root",
    fConfFile := "proof.conf", fWorkDir := "~/proof", fUser := "user",
    fImage := "image", fUrlProtocol := "proof", fPort := kPROOF_Port,
    fProtocol := 3, fLogLevel := 0, fStatus := 0, fParallel := 3,
    fMasterServ := true, fSendGroupView := false,
    fSlaves := some [w1, w2, w3], fActiveSlaves := some [w1, w2, w3],
    fUniqueSlaves := some [], fBadSlaves := some [], fCondor := none }

/-- Storage whose bytes at the place of `fUniqueSlaves` are a stale pointer to
a list holding `w3`, and whose other pointers are stale too. -/
def staleStorage : TProof :=
  { threeActive with
    fSlaves := some [w1], fActiveSlaves := some [w2], fUniqueSlaves := some [w3],
    fBadSlaves := some [w2], fCondor := some 7 }

/-- A transport on which every send succeeds except a send to `w2`. -/
def sendFailsOnW2 (sl : TSlave) (_pl : Payload) : Bool := decide (sl ≠ w2)

/-! ## The worker record -/

/-- Claim C1, as stated, fails: `SetStatus(kActive)` on a record whose status
is `kBad` leaves a record whose status is `kActive`, not `kBad`. -/
theorem SetStatus_leaves_bad :
    (TSlaveInfo.mk 3 "node3" 100 ESlaveStatus.kBad).fStatus = ESlaveStatus.kBad ∧
    ((TSlaveInfo.mk 3 "node3" 100 ESlaveStatus.kBad).SetStatus ESlaveStatus.kActive).fStatus
      = ESlaveStatus.kActive ∧
    ((TSlaveInfo.mk 3 "node3" 100 ESlaveStatus.kBad).SetStatus ESlaveStatus.kActive).fStatus
      ≠ ESlaveStatus.kBad := by
  refine ⟨rfl, rfl, ?_⟩
  simp [TSlaveInfo.SetStatus]

/-- Claim C1, amended: `SetStatus(s)` stores `s` unconditionally. For every
record, Bad or not, and every status `s`, after `SetStatus(s)` the status is
`s` and the ordinal, host and performance index are unchanged; so the record
is Bad afterwards exactly when `s` is `kBad`. -/
theorem SetStatus_stores (i : TSlaveInfo) (s : ESlaveStatus) :
    (i.SetStatus s).fStatus = s ∧
    (i.SetStatus s).fOrdinal = i.fOrdinal ∧
    (i.SetStatus s).fHostName = i.fHostName ∧
    (i.SetStatus s).fPerfIndex = i.fPerfIndex ∧
    ((i.SetStatus s).fStatus = ESlaveStatus.kBad ↔ s = ESlaveStatus.kBad) :=
  ⟨rfl, rfl, rfl, rfl, Iff.rfl⟩

/-- Claim C8: a newly constructed worker record is not active. The
constructor stores its three arguments, sets the status to `kNotActive`
(so neither `kActive` nor `kBad`), `GetOrdinal` and `GetName` return the
ordinal and the host, and without arguments the record is
`(0, "", 0, kNotActive)`. -/
theorem new_record_not_active (o : Int) (h : String) (p : Int) :
    (TSlaveInfo.new o h p).fOrdinal = o ∧
    (TSlaveInfo.new o h p).fHostName = h ∧
    (TSlaveInfo.new o h p).fPerfIndex = p ∧
    (TSlaveInfo.new o h p).fStatus = ESlaveStatus.kNotActive ∧
    (TSlaveInfo.new o h p).fStatus ≠ ESlaveStatus.kActive ∧
    (TSlaveInfo.new o h p).fStatus ≠ ESlaveStatus.kBad ∧
    (TSlaveInfo.new o h p).GetOrdinal = o ∧
    (TSlaveInfo.new o h p).GetName = h ∧
    TSlaveInfo.newDefault = TSlaveInfo.mk 0 "" 0 ESlaveStatus.kNotActive := by
  refine ⟨rfl, rfl, rfl, rfl, ?_, ?_, rfl, rfl, rfl⟩ <;> simp [TSlaveInfo.new]

/-! ## Constants and inline members of the coordinator -/

/-- Claim C6: the protocol version constant is 3 and `GetClientProtocol`
returns 3 in every state, whatever remote protocol value `fProtocol` holds
and `GetRemoteProtocol` reports. -/
theorem client_protocol_is_three :
    kPROOF_Protocol = 3 ∧
    (∀ p : TProof, p.GetClientProtocol = 3) ∧
    (∀ (p : TProof) (v : Int),
      TProof.GetRemoteProtocol { p with fProtocol := v } = v ∧
      TProof.GetClientProtocol { p with fProtocol := v } = 3) :=
  ⟨rfl, fun _ => rfl, fun _ _ => ⟨rfl, rfl⟩⟩

/-- Claim C7: the urgent kinds are exactly Hard, Soft and Shutdown, their
codes are 1, 2 and 3, the code mapping is injective and no kind has code 0. -/
theorem urgent_codes :
    (∀ k : EUrgent, k = EUrgent.kHardInterrupt ∨ k = EUrgent.kSoftInterrupt ∨
      k = EUrgent.kShutdownInterrupt) ∧
    EUrgent.kHardInterrupt.toInt = 1 ∧
    EUrgent.kSoftInterrupt.toInt = 2 ∧
    EUrgent.kShutdownInterrupt.toInt = 3 ∧
    Function.Injective EUrgent.toInt ∧
    (∀ k : EUrgent, k.toInt ≠ 0) := by
  refine ⟨?_, rfl, rfl, rfl, ?_, ?_⟩
  · intro k
    cases k <;> simp
  · intro a b hab
    cases a <;> cases b <;> simp [EUrgent.toInt] at hab <;> rfl
  · intro k
    cases k <;> simp [EUrgent.toInt]

/-- Claim C10: `IsParallel()` is true exactly when `GetParallel()` is
strictly positive, and false exactly when it is zero or negative, for every
state and whatever `GetParallel` computes. -/
theorem IsParallel_iff (GetParallel : TProof → Int) (p : TProof) :
    (TProof.IsParallel GetParallel p = true ↔ GetParallel p > 0) ∧
    (TProof.IsParallel GetParallel p = false ↔ GetParallel p ≤ 0) := by
  unfold TProof.IsParallel
  constructor
  · by_cases h : GetParallel p > 0 <;> simp [h]
  · by_cases h : GetParallel p > 0
    · simp [h]
    · simp [h]
      omega

/-- Claim C9: the kind-only broadcast overloads are the textual broadcast
with a null message. Whatever the two callees do, `Broadcast(k, L)` is
`Broadcast(null, k, L)`, `Broadcast(k, s)` is `Broadcast(null, k, s)` for each
selector, and `Broadcast(k)` is `Broadcast(null, k, kActive)`: same returned
value, same effect. -/
theorem kind_only_broadcast {ρ : Type}
    (BroadcastText : Option String → Int → Option (List TSlave) → TProof → ρ)
    (BroadcastTextSet : Option String → Int → ESlaves → TProof → ρ)
    (k : Int) (p : TProof) :
    (∀ L : Option (List TSlave),
      TProof.BroadcastKind BroadcastText k L p = BroadcastText none k L p) ∧
    (∀ s : ESlaves,
      TProof.BroadcastKindSet BroadcastTextSet k s p = BroadcastTextSet none k s p) ∧
    TProof.BroadcastKindDefault BroadcastTextSet k p
      = BroadcastTextSet none k ESlaves.kActive p :=
  ⟨fun _ => rfl, fun _ => rfl, rfl⟩

/-! ## The default constructor and the list invariant -/

/-- The default constructor leaves `fUniqueSlaves` as the storage had it, while
the three other lists become null. -/
theorem ctor_lists (mem : TProof) :
    (TProof.ctor mem).fSlaves = none ∧
    (TProof.ctor mem).fActiveSlaves = none ∧
    (TProof.ctor mem).fBadSlaves = none ∧
    (TProof.ctor mem).fUniqueSlaves = mem.fUniqueSlaves :=
  ⟨rfl, rfl, rfl, rfl⟩

/-- Claim C2 at the default constructor: run in storage whose `fUniqueSlaves`
bytes are a stale pointer to a list holding `w3`, the constructor nulls All,
Active and Bad but leaves Unique pointing to that list, so Unique is not empty
and not a subset of Active, and the list invariant does not hold. -/
theorem ctor_unique_uninitialised :
    (TProof.ctor staleStorage).fSlaves = none ∧
    (TProof.ctor staleStorage).fActiveSlaves = none ∧
    (TProof.ctor staleStorage).fBadSlaves = none ∧
    (TProof.ctor staleStorage).fUniqueSlaves = some [w3] ∧
    w3 ∈ slavesOf (TProof.ctor staleStorage).fUniqueSlaves ∧
    w3 ∉ slavesOf (TProof.ctor staleStorage).fActiveSlaves ∧
    ¬ TProof.ListsInvariant (TProof.ctor staleStorage) := by
  refine ⟨rfl, rfl, rfl, rfl, ?_, ?_, ?_⟩
  · simp [TProof.ctor, staleStorage, slavesOf]
  · simp [TProof.ctor, slavesOf]
  · intro h
    have h2 := h.2.1
    simp [TProof.ctor, staleStorage, slavesOf] at h2

/-! ## Marking a worker bad -/

theorem mem_active_MarkBad (p : TProof) (sl w : TSlave) :
    w ∈ slavesOf (p.MarkBad sl).fActiveSlaves ↔ (w ∈ slavesOf p.fActiveSlaves ∧ w ≠ sl) := by
  simp [TProof.MarkBad, slavesOf, List.mem_filter]

theorem mem_unique_MarkBad (p : TProof) (sl w : TSlave) :
    w ∈ slavesOf (p.MarkBad sl).fUniqueSlaves ↔ (w ∈ slavesOf p.fUniqueSlaves ∧ w ≠ sl) := by
  simp [TProof.MarkBad, slavesOf, List.mem_filter]

theorem mem_bad_MarkBad (p : TProof) (sl w : TSlave) :
    w ∈ slavesOf (p.MarkBad sl).fBadSlaves ↔ (w ∈ slavesOf p.fBadSlaves ∨ w = sl) := by
  by_cases h : sl ∈ slavesOf p.fBadSlaves
  · have e : slavesOf (p.MarkBad sl).fBadSlaves = slavesOf p.fBadSlaves := by
      simp [TProof.MarkBad, slavesOf, h] at h ⊢
      simp [h]
    rw [e]
    constructor
    · exact Or.inl
    · rintro (hw | rfl)
      · exact hw
      · exact h
  · have e : slavesOf (p.MarkBad sl).fBadSlaves = slavesOf p.fBadSlaves ++ [sl] := by
      simp [TProof.MarkBad, slavesOf, h] at h ⊢
      simp [h]
    rw [e]
    simp

theorem fSlaves_MarkBad (p : TProof) (sl : TSlave) :
    (p.MarkBad sl).fSlaves = p.fSlaves := rfl

theorem MarkBad_twice (p : TProof) (sl : TSlave) :
    (p.MarkBad sl).MarkBad sl = p.MarkBad sl := by
  have hb : sl ∈ slavesOf (p.MarkBad sl).fBadSlaves :=
    (mem_bad_MarkBad p sl sl).2 (Or.inr rfl)
  have e1 : ((p.MarkBad sl).MarkBad sl).fBadSlaves = (p.MarkBad sl).fBadSlaves := by
    have : ((p.MarkBad sl).MarkBad sl).fBadSlaves
        = some (if sl ∈ slavesOf (p.MarkBad sl).fBadSlaves then slavesOf (p.MarkBad sl).fBadSlaves
                else slavesOf (p.MarkBad sl).fBadSlaves ++ [sl]) := rfl
    rw [this, if_pos hb]
    rfl
  have e2 : ((p.MarkBad sl).MarkBad sl).fActiveSlaves = (p.MarkBad sl).fActiveSlaves := by
    simp [TProof.MarkBad, slavesOf, List.filter_filter]
  have e3 : ((p.MarkBad sl).MarkBad sl).fUniqueSlaves = (p.MarkBad sl).fUniqueSlaves := by
    simp [TProof.MarkBad, slavesOf, List.filter_filter]
  calc (p.MarkBad sl).MarkBad sl
      = { p.MarkBad sl with
          fActiveSlaves := ((p.MarkBad sl).MarkBad sl).fActiveSlaves,
          fUniqueSlaves := ((p.MarkBad sl).MarkBad sl).fUniqueSlaves,
          fBadSlaves := ((p.MarkBad sl).MarkBad sl).fBadSlaves } := rfl
    _ = p.MarkBad sl := by rw [e1, e2, e3]

theorem not_mem_active_foldl_MarkBad (later : List TSlave) (p : TProof) (w : TSlave)
    (h : w ∉ slavesOf p.fActiveSlaves) :
    w ∉ slavesOf (later.foldl TProof.MarkBad p).fActiveSlaves := by
  induction later generalizing p with
  | nil => exact h
  | cons sl rest ih =>
    apply ih
    intro hw
    exact h ((mem_active_MarkBad p sl w).1 hw).1

theorem mem_bad_foldl_MarkBad (later : List TSlave) (p : TProof) (w : TSlave)
    (h : w ∈ slavesOf p.fBadSlaves) :
    w ∈ slavesOf (later.foldl TProof.MarkBad p).fBadSlaves := by
  induction later generalizing p with
  | nil => exact h
  | cons sl rest ih =>
    apply ih
    exact (mem_bad_MarkBad p sl w).2 (Or.inl h)

/-- Claim C3: `MarkBad` is idempotent and monotonic. After `MarkBad(w)` the
worker is in the Bad list and in neither the Active nor the Unique list;
a second `MarkBad(w)` changes nothing; and after any further sequence of
`MarkBad` calls, on any workers, `w` is still in Bad and still not in
Active. -/
theorem MarkBad_idempotent_monotonic (p : TProof) (w : TSlave) :
    w ∈ slavesOf (p.MarkBad w).fBadSlaves ∧
    w ∉ slavesOf (p.MarkBad w).fActiveSlaves ∧
    w ∉ slavesOf (p.MarkBad w).fUniqueSlaves ∧
    (p.MarkBad w).MarkBad w = p.MarkBad w ∧
    (∀ later : List TSlave,
      w ∈ slavesOf (later.foldl TProof.MarkBad (p.MarkBad w)).fBadSlaves ∧
      w ∉ slavesOf (later.foldl TProof.MarkBad (p.MarkBad w)).fActiveSlaves) := by
  have hb : w ∈ slavesOf (p.MarkBad w).fBadSlaves :=
    (mem_bad_MarkBad p w w).2 (Or.inr rfl)
  have ha : w ∉ slavesOf (p.MarkBad w).fActiveSlaves := fun h =>
    ((mem_active_MarkBad p w w).1 h).2 rfl
  have hu : w ∉ slavesOf (p.MarkBad w).fUniqueSlaves := fun h =>
    ((mem_unique_MarkBad p w w).1 h).2 rfl
  exact ⟨hb, ha, hu, MarkBad_twice p w, fun later =>
    ⟨mem_bad_foldl_MarkBad later _ w hb, not_mem_active_foldl_MarkBad later _ w ha⟩⟩

/-- The scenario of claim C3 on the three-worker coordinator: marking `w2` bad
once or twice gives Active `[w1, w3]` and Bad `[w2]`, and marking `w1` and
`w3` afterwards does not bring `w2` back. -/
theorem MarkBad_scenario :
    (threeActive.MarkBad w2).fActiveSlaves = some [w1, w3] ∧
    (threeActive.MarkBad w2).fBadSlaves = some [w2] ∧
    ((threeActive.MarkBad w2).MarkBad w2).fBadSlaves = some [w2] ∧
    w2 ∉ slavesOf ([w1, w3].foldl TProof.MarkBad (threeActive.MarkBad w2)).fActiveSlaves :=
  ⟨by decide, by decide, by decide,
    ((MarkBad_idempotent_monotonic threeActive w2).2.2.2.2 [w1, w3]).2⟩

/-! ## Finding the unique workers -/

theorem uniqueFrom_sublist (hosts : List String) (l : List TSlave) :
    (TProof.uniqueFrom hosts l).Sublist l := by
  induction l generalizing hosts with
  | nil => simp [TProof.uniqueFrom]
  | cons sl rest ih =>
    by_cases h : sl.fName ∈ hosts
    · simp only [TProof.uniqueFrom, h, if_true]
      exact (ih hosts).cons sl
    · simp only [TProof.uniqueFrom, h, if_false]
      exact (ih (sl.fName :: hosts)).cons₂ sl

theorem uniqueFrom_not_seen (hosts : List String) (l : List TSlave) :
    ∀ v ∈ TProof.uniqueFrom hosts l, v.fName ∉ hosts := by
  induction l generalizing hosts with
  | nil => simp [TProof.uniqueFrom]
  | cons sl rest ih =>
    intro v hv
    by_cases h : sl.fName ∈ hosts
    · simp only [TProof.uniqueFrom, h, if_true] at hv
      exact ih hosts v hv
    · simp only [TProof.uniqueFrom, h, if_false, List.mem_cons] at hv
      rcases hv with rfl | hv
      · exact h
      · intro hin
        exact ih (sl.fName :: hosts) v hv (List.mem_cons_of_mem _ hin)

theorem uniqueFrom_pairwise (hosts : List String) (l : List TSlave) :
    (TProof.uniqueFrom hosts l).Pairwise (fun a b => a.fName ≠ b.fName) := by
  induction l generalizing hosts with
  | nil => simp [TProof.uniqueFrom]
  | cons sl rest ih =>
    by_cases h : sl.fName ∈ hosts
    · simp only [TProof.uniqueFrom, h, if_true]
      exact ih hosts
    · simp only [TProof.uniqueFrom, h, if_false]
      refine List.Pairwise.cons ?_ (ih _)
      intro b hb heq
      exact uniqueFrom_not_seen (sl.fName :: hosts) rest b hb (by simp [heq])

theorem uniqueFrom_covers (hosts : List String) (l : List TSlave) :
    ∀ w ∈ l, w.fName ∈ hosts ∨ ∃ v ∈ TProof.uniqueFrom hosts l, v.fName = w.fName := by
  induction l generalizing hosts with
  | nil => simp
  | cons sl rest ih =>
    intro w hw
    rcases List.mem_cons.1 hw with rfl | hw
    · by_cases h : w.fName ∈ hosts
      · exact Or.inl h
      · right
        simp only [TProof.uniqueFrom, h, if_false]
        exact ⟨w, List.mem_cons_self _ _, rfl⟩
    · by_cases h : sl.fName ∈ hosts
      · simp only [TProof.uniqueFrom, h, if_true]
        exact ih hosts w hw
      · simp only [TProof.uniqueFrom, h, if_false]
        rcases ih (sl.fName :: hosts) w hw with hin | ⟨v, hv, hvw⟩
        · rcases List.mem_cons.1 hin with heq | hin
          · exact Or.inr ⟨sl, List.mem_cons_self _ _, heq.symm⟩
          · exact Or.inl hin
        · exact Or.inr ⟨v, List.mem_cons_of_mem _ hv, hvw⟩

theorem uniqueFrom_first (hosts : List String) (l : List TSlave) :
    ∀ v ∈ TProof.uniqueFrom hosts l,
      l.find? (fun w => decide (w.fName = v.fName)) = some v := by
  induction l generalizing hosts with
  | nil => simp [TProof.uniqueFrom]
  | cons sl rest ih =>
    intro v hv
    by_cases h : sl.fName ∈ hosts
    · simp only [TProof.uniqueFrom, h, if_true] at hv
      have hne : sl.fName ≠ v.fName := by
        intro heq
        exact uniqueFrom_not_seen hosts rest v hv (heq ▸ h)
      simp only [List.find?_cons, hne, decide_False]
      exact ih hosts v hv
    · simp only [TProof.uniqueFrom, h, if_false, List.mem_cons] at hv
      rcases hv with rfl | hv
      · simp [List.find?_cons]
      · have hne : sl.fName ≠ v.fName := by
          intro heq
          exact uniqueFrom_not_seen (sl.fName :: hosts) rest v hv (by simp [heq])
        simp only [List.find?_cons, hne, decide_False]
        exact ih (sl.fName :: hosts) v hv

theorem uniqueFrom_map (g : TSlave → TSlave) (hg : ∀ w, (g w).fName = w.fName)
    (hosts : List String) (l : List TSlave) :
    TProof.uniqueFrom hosts (l.map g) = (TProof.uniqueFrom hosts l).map g := by
  induction l generalizing hosts with
  | nil => simp [TProof.uniqueFrom]
  | cons sl rest ih =>
    by_cases h : sl.fName ∈ hosts
    · simp only [List.map_cons, TProof.uniqueFrom, hg, h, if_true]
      exact ih hosts
    · simp only [List.map_cons, TProof.uniqueFrom, hg, h, if_false]
      rw [ih]

/-- Claim C4: `FindUniqueSlaves` computes Unique from the Active list alone.
It leaves the Active list as it is; Unique is a sub-sequence of Active; no two
workers of Unique share a host; every host of an Active worker has a worker in
Unique; each worker of Unique is the first worker of Active on its host; two
states with the same Active list get the same Unique list; and a state whose
Active workers differ only by their performance indices gets the same Unique
workers, with those indices. -/
theorem FindUniqueSlaves_first_per_host (p : TProof) :
    (p.FindUniqueSlaves).fActiveSlaves = p.fActiveSlaves ∧
    (slavesOf (p.FindUniqueSlaves).fUniqueSlaves).Sublist (slavesOf p.fActiveSlaves) ∧
    (slavesOf (p.FindUniqueSlaves).fUniqueSlaves).Pairwise
      (fun a b => a.fName ≠ b.fName) ∧
    (∀ w ∈ slavesOf p.fActiveSlaves,
      ∃ v ∈ slavesOf (p.FindUniqueSlaves).fUniqueSlaves, v.fName = w.fName) ∧
    (∀ v ∈ slavesOf (p.FindUniqueSlaves).fUniqueSlaves,
      (slavesOf p.fActiveSlaves).find? (fun w => decide (w.fName = v.fName)) = some v) ∧
    (∀ q : TProof, q.fActiveSlaves = p.fActiveSlaves →
      (q.FindUniqueSlaves).fUniqueSlaves = (p.FindUniqueSlaves).fUniqueSlaves) ∧
    (∀ (q : TProof) (perf : TSlave → Int),
      slavesOf q.fActiveSlaves = (slavesOf p.fActiveSlaves).map (TSlave.withPerfIdx perf) →
      slavesOf (q.FindUniqueSlaves).fUniqueSlaves
        = (slavesOf (p.FindUniqueSlaves).fUniqueSlaves).map (TSlave.withPerfIdx perf)) := by
  have e : slavesOf (p.FindUniqueSlaves).fUniqueSlaves
      = TProof.uniqueFrom [] (slavesOf p.fActiveSlaves) := rfl
  rw [e]
  refine ⟨rfl, uniqueFrom_sublist _ _, uniqueFrom_pairwise _ _, ?_, uniqueFrom_first _ _, ?_, ?_⟩
  · intro w hw
    rcases uniqueFrom_covers [] _ w hw with h | h
    · simp at h
    · exact h
  · intro q hq
    simp only [TProof.FindUniqueSlaves, hq]
  · intro q perf hq
    have eq : slavesOf (q.FindUniqueSlaves).fUniqueSlaves
        = TProof.uniqueFrom [] (slavesOf q.fActiveSlaves) := rfl
    rw [eq, hq]
    exact uniqueFrom_map (TSlave.withPerfIdx perf) (fun _ => rfl) [] _

/-- The scenario of claim C4: with Active `[w1 (host A), w2 (host A),
w3 (host B)]`, Unique becomes `[w1, w3]`, also when the second worker on host A
has the higher performance index; and the first worker found on host A by a
search through Active is `w1`. -/
theorem FindUniqueSlaves_scenario :
    (threeActive.FindUniqueSlaves).fUniqueSlaves = some [w1, w3] ∧
    w1.fPerfIdx < w2.fPerfIdx ∧
    (∀ v ∈ slavesOf (threeActive.FindUniqueSlaves).fUniqueSlaves,
      (slavesOf threeActive.fActiveSlaves).find? (fun w => decide (w.fName = v.fName))
        = some v) :=
  ⟨by decide, by decide, (FindUniqueSlaves_first_per_host threeActive).2.2.2.2.1⟩

/-! ## Broadcasting under partial failure -/

theorem broadcastLoop_attempted (send : TSlave → Payload → Bool) (pl : Payload)
    (l : List TSlave) (r : Sent) :
    (TProof.broadcastLoop send pl l r).attempted = r.attempted ++ l := by
  induction l generalizing r with
  | nil => simp [TProof.broadcastLoop]
  | cons sl rest ih =>
    by_cases h : send sl pl = true
    · simp only [TProof.broadcastLoop, h, if_true]
      rw [ih]
      simp
    · have hf : send sl pl = false := by simpa using h
      simp only [TProof.broadcastLoop, hf, Bool.false_eq_true, if_false]
      rw [ih]
      simp

theorem broadcastLoop_nsent (send : TSlave → Payload → Bool) (pl : Payload)
    (l : List TSlave) (r : Sent) :
    (TProof.broadcastLoop send pl l r).nsent
      = r.nsent + ((l.filter (fun w => send w pl)).length : Int) := by
  induction l generalizing r with
  | nil => simp [TProof.broadcastLoop]
  | cons sl rest ih =>
    by_cases h : send sl pl = true
    · simp only [TProof.broadcastLoop, h, if_true]
      rw [ih]
      simp [List.filter_cons, h]
      omega
    · have hf : send sl pl = false := by simpa using h
      simp only [TProof.broadcastLoop, hf, Bool.false_eq_true, if_false]
      rw [ih]
      simp [List.filter_cons, hf]

theorem broadcastLoop_bad (send : TSlave → Payload → Bool) (pl : Payload)
    (l : List TSlave) (r : Sent) (w : TSlave) :
    w ∈ slavesOf (TProof.broadcastLoop send pl l r).state.fBadSlaves ↔
      (w ∈ slavesOf r.state.fBadSlaves ∨ (w ∈ l ∧ send w pl = false)) := by
  induction l generalizing r with
  | nil => simp [TProof.broadcastLoop]
  | cons sl rest ih =>
    by_cases h : send sl pl = true
    · simp only [TProof.broadcastLoop, h, if_true]
      rw [ih]
      simp only [List.mem_cons]
      constructor
      · rintro (hb | ⟨hw, hs⟩)
        · exact Or.inl hb
        · exact Or.inr ⟨Or.inr hw, hs⟩
      · rintro (hb | ⟨rfl | hw, hs⟩)
        · exact Or.inl hb
        · rw [h] at hs
          exact absurd hs (by decide)
        · exact Or.inr ⟨hw, hs⟩
    · have hf : send sl pl = false := by simpa using h
      simp only [TProof.broadcastLoop, hf, Bool.false_eq_true, if_false]
      rw [ih]
      simp only [mem_bad_MarkBad, List.mem_cons]
      constructor
      · rintro ((hb | rfl) | ⟨hw, hs⟩)
        · exact Or.inl hb
        · exact Or.inr ⟨Or.inl rfl, hf⟩
        · exact Or.inr ⟨Or.inr hw, hs⟩
      · rintro (hb | ⟨rfl | hw, hs⟩)
        · exact Or.inl (Or.inl hb)
        · exact Or.inl (Or.inr rfl)
        · exact Or.inr ⟨hw, hs⟩

theorem broadcastLoop_active (send : TSlave → Payload → Bool) (pl : Payload)
    (l : List TSlave) (r : Sent) (w : TSlave) :
    w ∈ slavesOf (TProof.broadcastLoop send pl l r).state.fActiveSlaves ↔
      (w ∈ slavesOf r.state.fActiveSlaves ∧ ¬ (w ∈ l ∧ send w pl = false)) := by
  induction l generalizing r with
  | nil => simp [TProof.broadcastLoop]
  | cons sl rest ih =>
    by_cases h : send sl pl = true
    · simp only [TProof.broadcastLoop, h, if_true]
      rw [ih]
      simp only [List.mem_cons]
      constructor
      · rintro ⟨ha, hn⟩
        refine ⟨ha, ?_⟩
        rintro ⟨rfl | hw, hs⟩
        · rw [h] at hs
          exact absurd hs (by decide)
        · exact hn ⟨hw, hs⟩
      · rintro ⟨ha, hn⟩
        exact ⟨ha, fun ⟨hw, hs⟩ => hn ⟨Or.inr hw, hs⟩⟩
    · have hf : send sl pl = false := by simpa using h
      simp only [TProof.broadcastLoop, hf, Bool.false_eq_true, if_false]
      rw [ih]
      simp only [mem_active_MarkBad, List.mem_cons]
      constructor
      · rintro ⟨⟨ha, hne⟩, hn⟩
        refine ⟨ha, ?_⟩
        rintro ⟨rfl | hw, hs⟩
        · exact hne rfl
        · exact hn ⟨hw, hs⟩
      · rintro ⟨ha, hn⟩
        refine ⟨⟨ha, ?_⟩, fun ⟨hw, hs⟩ => hn ⟨Or.inr hw, hs⟩⟩
        rintro rfl
        exact hn ⟨Or.inl rfl, hf⟩

theorem broadcastPayload_outcome (send : TSlave → Payload → Bool) (pl : Payload)
    (slaves : Option (List TSlave)) (p : TProof) :
    TProof.PartialFailureOutcome send pl (slavesOf slaves) p
      (TProof.broadcastPayload send pl slaves p) := by
  unfold TProof.PartialFailureOutcome TProof.broadcastPayload
  refine ⟨?_, ?_, ?_, ?_⟩
  · rw [broadcastLoop_attempted]
    simp
  · rw [broadcastLoop_nsent]
    simp
  · intro w
    rw [broadcastLoop_bad]
  · intro w
    rw [broadcastLoop_active]

/-- Claim C5: broadcast tolerates partial failure. For every transport `send`,
every state and every target list, each member of the broadcast family
(structured message, textual command, object, raw buffer, and the textual
command sent to a selected set) attempts a send to every target in order,
returns the number of targets whose send succeeded, and leaves a state whose
Bad list has gained exactly the targets whose send failed and whose Active
list has lost exactly those. -/
theorem broadcast_partial_failure (send : TSlave → Payload → Bool)
    (slaves : Option (List TSlave)) (p : TProof) :
    (∀ mess : TMessage,
      TProof.PartialFailureOutcome send (Payload.message mess) (slavesOf slaves) p
        (TProof.BroadcastMessage send mess slaves p)) ∧
    (∀ (mess : Option String) (kind : Int),
      TProof.PartialFailureOutcome send (Payload.text mess kind) (slavesOf slaves) p
        (TProof.Broadcast send mess kind slaves p)) ∧
    (∀ (obj : Option String) (kind : Int),
      TProof.PartialFailureOutcome send (Payload.message (TMessage.mk kind obj))
        (slavesOf slaves) p (TProof.BroadcastObject send obj kind slaves p)) ∧
    (∀ (buffer : List Nat) (length : Int),
      TProof.PartialFailureOutcome send (Payload.raw buffer length) (slavesOf slaves) p
        (TProof.BroadcastRaw send buffer length slaves p)) ∧
    (∀ (mess : Option String) (kind : Int) (list : ESlaves),
      TProof.PartialFailureOutcome send (Payload.text mess kind)
        (slavesOf (p.listOf list)) p (TProof.BroadcastSet send mess kind list p)) :=
  ⟨fun _ => broadcastPayload_outcome send _ slaves p,
   fun _ _ => broadcastPayload_outcome send _ slaves p,
   fun _ _ => broadcastPayload_outcome send _ slaves p,
   fun _ _ => broadcastPayload_outcome send _ slaves p,
   fun _ _ list => broadcastPayload_outcome send _ (p.listOf list) p⟩

/-- The scenario of claim C5: broadcasting the text PING to Active
`[w1, w2, w3]` when only the send to `w2` fails returns 2, attempts all three
sends, moves `w2` to Bad and leaves Active `[w1, w3]`. -/
theorem broadcast_ping_scenario :
    (TProof.BroadcastSet sendFailsOnW2 (some "PING") 3 ESlaves.kActive threeActive).nsent = 2 ∧
    (TProof.BroadcastSet sendFailsOnW2 (some "PING") 3 ESlaves.kActive threeActive).attempted
      = [w1, w2, w3] ∧
    (TProof.BroadcastSet sendFailsOnW2 (some "PING") 3 ESlaves.kActive threeActive).state.fBadSlaves
      = some [w2] ∧
    (TProof.BroadcastSet sendFailsOnW2 (some "PING") 3 ESlaves.kActive threeActive).state.fActiveSlaves
      = some [w1, w3] ∧
    TProof.PartialFailureOutcome sendFailsOnW2 (Payload.text (some "PING") 3)
      (slavesOf (threeActive.listOf ESlaves.kActive)) threeActive
      (TProof.BroadcastSet sendFailsOnW2 (some "PING") 3 ESlaves.kActive threeActive) :=
  ⟨by decide, by decide, by decide, by decide,
    (broadcast_partial_failure sendFailsOnW2 threeActive.fActiveSlaves threeActive).2.2.2.2
      (some "PING") 3 ESlaves.kActive⟩

/-! ## Preservation of the list invariant by the modelled operations -/

theorem MarkBad_preserves_invariant (p : TProof) (sl : TSlave)
    (hsl : sl ∈ slavesOf p.fSlaves) (h : p.ListsInvariant) :
    (p.MarkBad sl).ListsInvariant := by
  obtain ⟨h1, h2, h3, h4⟩ := h
  refine ⟨?_, ?_, ?_, ?_⟩
  · intro w hw
    exact h1 ((mem_active_MarkBad p sl w).1 hw).1
  · intro w hw
    have hu := (mem_unique_MarkBad p sl w).1 hw
    exact (mem_active_MarkBad p sl w).2 ⟨h2 hu.1, hu.2⟩
  · intro w hw
    rcases (mem_bad_MarkBad p sl w).1 hw with hb | rfl
    · exact h3 hb
    · exact hsl
  · intro w hw hb
    have ha := (mem_active_MarkBad p sl w).1 hw
    rcases (mem_bad_MarkBad p sl w).1 hb with hb | rfl
    · exact h4 ha.1 hb
    · exact ha.2 rfl

theorem FindUniqueSlaves_preserves_invariant (p : TProof) (h : p.ListsInvariant) :
    (p.FindUniqueSlaves).ListsInvariant := by
  obtain ⟨h1, _, h3, h4⟩ := h
  exact ⟨h1, (uniqueFrom_sublist [] _).subset, h3, h4⟩

end PROOF
